import Mathlib

/-!
Verification of the dirgo scan–detect–parse–format pipeline.

The TypeScript sources are shallowly embedded as executable Lean
definitions.  JavaScript string primitives (`trim`, `slice`,
`startsWith`, `split`, `includes`, one-shot `replace`) are modelled
character-wise over `String.data`; all inputs of interest are ASCII, where
JavaScript's UTF-16 code-unit semantics and Lean's scalar-value semantics
coincide.  The external effects — the node `access`/`readFile`/`readdir`
primitives and the `JSON.parse` builtin — are an oracle record `FS`; the
`utils/fs.ts` helpers built on them (`exists`, `readJson`, `readText`,
`readLines`, and the reduced TOML reader `parseToml`/`readToml`) are
translated from the second document of `src/utils/clipboard.ts`.  The
recursive directory walk is embedded with an explicit fuel parameter;
the source recursion terminates on every finite tree, and every theorem
below is proved for all fuel values, so the fuel is only a termination
device.
-/

/-- JavaScript `String.prototype.trim` (whitespace at both ends). -/
def jsTrim (s : String) : String :=
  ⟨((s.data.dropWhile Char.isWhitespace).reverse.dropWhile Char.isWhitespace).reverse⟩

/-- JavaScript `String.prototype.startsWith`. -/
def jsStartsWith (s pre : String) : Bool :=
  pre.data.isPrefixOf s.data

/-- JavaScript `String.prototype.endsWith`. -/
def jsEndsWith (s suf : String) : Bool :=
  decide (suf.data <:+ s.data)

/-- JavaScript `String.prototype.slice(n)` (drop the first `n` code units). -/
def jsSliceFrom (s : String) (n : Nat) : String :=
  ⟨s.data.drop n⟩

/-- Accumulator loop for `jsSplitChar`. -/
def splitOnCharAux (sep : Char) : List Char → List Char → List String
  | [], cur => [⟨cur.reverse⟩]
  | c :: cs, cur =>
    if c = sep then ⟨cur.reverse⟩ :: splitOnCharAux sep cs []
    else splitOnCharAux sep cs (c :: cur)

/-- JavaScript `String.prototype.split(sep)` for a one-character separator
(empty segments are kept, as in JavaScript). -/
def jsSplitChar (s : String) (sep : Char) : List String :=
  splitOnCharAux sep s.data []

/-- Accumulator loop for `jsSplitWs`. -/
def wsTokensAux : List Char → List Char → List String
  | [], cur => if cur.isEmpty then [] else [⟨cur.reverse⟩]
  | c :: cs, cur =>
    if c.isWhitespace then
      if cur.isEmpty then wsTokensAux cs []
      else ⟨cur.reverse⟩ :: wsTokensAux cs []
    else wsTokensAux cs (c :: cur)

/-- JavaScript `String.prototype.split(/\s+/)`, as used by the sources:
the sources only ever inspect `parts.length >= 2` and the first two
tokens, for which dropping empty tokens (this model) and JavaScript's
single leading empty token on an all-whitespace input are
indistinguishable. -/
def jsSplitWs (s : String) : List String :=
  wsTokensAux s.data []

/-- Locate the first occurrence of `pat` in a character list, returning
the part before it and the part after it. -/
def findSplitFirst (pat : List Char) : List Char → Option (List Char × List Char)
  | [] => if pat.isEmpty then some ([], []) else none
  | c :: cs =>
    if pat.isPrefixOf (c :: cs) then some ([], (c :: cs).drop pat.length)
    else
      match findSplitFirst pat cs with
      | some (a, b) => some (c :: a, b)
      | none => none

/-- JavaScript `String.prototype.includes`. -/
def jsIncludes (s pat : String) : Bool :=
  (findSplitFirst pat.data s.data).isSome

/-- JavaScript `String.prototype.replace` with a plain-string pattern
(replaces only the first occurrence). -/
def jsReplaceFirst (s pat repl : String) : String :=
  match findSplitFirst pat.data s.data with
  | some (a, b) => ⟨a ++ repl.data ++ b⟩
  | none => s

/-- JavaScript `String.prototype.replace(/.../g, "")` for a character
class: remove every character satisfying `p`. -/
def jsRemoveChars (s : String) (p : Char → Bool) : String :=
  ⟨s.data.filter (fun c => !p c)⟩

/-- JavaScript `x || d` for an optional string `x` (both `undefined` and
the empty string fall back to the default). -/
def jsOrElse (o : Option String) (d : String) : String :=
  match o with
  | some s => if s = "" then d else s
  | none => d

/-- Node `path.join` restricted to the shapes the sources produce: plain
segment concatenation with `/`, with empty segments absorbed. -/
def joinPath (a b : String) : String :=
  if a = "" then b else if b = "" then a else a ++ "/" ++ b

/-- Boolean lexicographic (scalar-value) order on character lists.  This
models the comparator `(a, b) => a.name.localeCompare(b.name)` of the
sources; the ICU locale order is not formalisable, and on the ASCII
names exercised here it agrees with scalar-value order. -/
def strLeB : List Char → List Char → Bool
  | [], _ => true
  | _ :: _, [] => false
  | a :: as, b :: bs => if a < b then true else if b < a then false else strLeB as bs

theorem strLeB_total (a b : List Char) : strLeB a b = true ∨ strLeB b a = true := by
  induction a generalizing b with
  | nil => left; rfl
  | cons x xs ih =>
    cases b with
    | nil => right; rfl
    | cons y ys =>
      by_cases hxy : x < y
      · left; simp [strLeB, hxy]
      · by_cases hyx : y < x
        · right; simp [strLeB, hyx, hxy]
        · cases ih ys with
          | inl h => left; simp [strLeB, hxy, hyx, h]
          | inr h => right; simp [strLeB, hxy, hyx, h]

theorem strLeB_trans {a b c : List Char} (h1 : strLeB a b = true)
    (h2 : strLeB b c = true) : strLeB a c = true := by
  induction a generalizing b c with
  | nil => rfl
  | cons x xs ih =>
    cases b with
    | nil => simp [strLeB] at h1
    | cons y ys =>
      cases c with
      | nil => simp [strLeB] at h2
      | cons z zs =>
        by_cases hxy : x < y
        · by_cases hyz : y < z
          · simp [strLeB, lt_trans hxy hyz]
          · by_cases hzy : z < y
            · simp [strLeB, hyz, hzy] at h2
            · have hyzeq : y = z := le_antisymm (not_lt.mp hzy) (not_lt.mp hyz)
              subst hyzeq
              simp [strLeB, hxy]
        · by_cases hyx : y < x
          · simp [strLeB, hxy, hyx] at h1
          · have hxyeq : x = y := le_antisymm (not_lt.mp hyx) (not_lt.mp hxy)
            subst hxyeq
            simp only [strLeB, lt_irrefl, if_false] at h1
            by_cases hxz : x < z
            · simp [strLeB, hxz]
            · by_cases hzx : z < x
              · simp [strLeB, hxz, hzx] at h2
              · have hxzeq : x = z := le_antisymm (not_lt.mp hzx) (not_lt.mp hxz)
                subst hxzeq
                simp only [strLeB, lt_irrefl, if_false] at h2 ⊢
                exact ih h1 h2

/-- The lexicographic order on strings used to state sortedness. -/
def strLe (a b : String) : Prop := strLeB a.data b.data = true

instance : DecidableRel strLe := fun a b => inferInstanceAs (Decidable (_ = true))

instance : IsTotal String strLe := ⟨fun a b => strLeB_total a.data b.data⟩

instance : IsTrans String strLe := ⟨fun _ _ _ => strLeB_trans⟩

/-- UTF-8 byte length of a string; models Node's
`Buffer.byteLength(text, "utf-8")`. -/
def utf8Len (s : String) : Nat :=
  s.data.foldl (fun n c => n + c.utf8Size) 0

/- ## Core data model (`src/types.ts`) -/

inductive ProjectType where
  | node | python | go | rust | unknown
  deriving DecidableEq, Repr

/-- The string carried by each `ProjectType` value in the sources. -/
def ProjectType.toStr : ProjectType → String
  | .node => "node"
  | .python => "python"
  | .go => "go"
  | .rust => "rust"
  | .unknown => "unknown"

inductive MonorepoType where
  | npmWorkspaces | pnpm | yarn | turbo | nx | lerna
  | goWorkspace | cargoWorkspace | pythonMonorepo
  deriving DecidableEq, Repr

/-- The string carried by each `MonorepoType` value in the sources. -/
def MonorepoType.toStr : MonorepoType → String
  | .npmWorkspaces => "npm-workspaces"
  | .pnpm => "pnpm"
  | .yarn => "yarn"
  | .turbo => "turbo"
  | .nx => "nx"
  | .lerna => "lerna"
  | .goWorkspace => "go-workspace"
  | .cargoWorkspace => "cargo-workspace"
  | .pythonMonorepo => "python-monorepo"

inductive PackageManager where
  | npm | pnpm | yarn | bun
  deriving DecidableEq, Repr

structure Dependency where
  name : String
  version : String
  isDev : Bool
  isIndirect : Bool
  deriving DecidableEq, Repr

structure FileEntry where
  name : String
  path : String
  relativePath : String
  isDirectory : Bool
  depth : Nat
  size : Option Nat
  deriving DecidableEq, Repr

structure TSConfig where
  paths : Option (List (String × List String))
  baseUrl : Option String
  target : Option String
  module : Option String
  strict : Option Bool
  jsx : Option String
  references : Option (List String)
  deriving DecidableEq, Repr

structure NodeProjectInfo where
  name : Option String
  version : Option String
  packageManager : PackageManager
  tsconfig : Option TSConfig
  deriving DecidableEq, Repr

structure PythonProjectInfo where
  pythonVersion : Option String
  buildSystem : Option String
  deriving DecidableEq, Repr

structure GoProjectInfo where
  moduleName : Option String
  goVersion : Option String
  deriving DecidableEq, Repr

structure RustProjectInfo where
  name : Option String
  edition : Option String
  rustVersion : Option String
  deriving DecidableEq, Repr

structure ProjectInfo where
  type : ProjectType
  dependencies : List Dependency
  node : Option NodeProjectInfo
  python : Option PythonProjectInfo
  go : Option GoProjectInfo
  rust : Option RustProjectInfo
  deriving DecidableEq, Repr

structure WorkspacePackage where
  name : String
  path : String
  type : Option ProjectType
  deriving DecidableEq, Repr

structure MonorepoInfo where
  type : MonorepoType
  packages : List WorkspacePackage
  deriving DecidableEq, Repr

structure ScanResult where
  root : String
  entries : List FileEntry
  projectInfo : ProjectInfo
  monorepo : Option MonorepoInfo
  deriving DecidableEq, Repr

structure ContextResult where
  text : String
  bytes : Nat
  tokens : Nat
  deriving DecidableEq, Repr

/- ## Token estimator (`src/core/tokens.ts`) -/

/-- `estimateTokens`: `Math.ceil(text.length / 4)`.  JavaScript's
`text.length` counts UTF-16 code units; `String.length` counts scalar
values — identical on the ASCII payloads produced here. -/
def estimateTokens (text : String) : Nat :=
  (text.length + 3) / 4

/- ## Go manifest parser (`src/parsers/go.ts`) -/

structure GoModAcc where
  moduleName : Option String
  goVersion : Option String
  dependencies : List Dependency
  inRequireBlock : Bool
  deriving DecidableEq, Repr

/-- One iteration of the `for (const line of lines)` loop of `parseGoMod`. -/
def parseGoModLine (st : GoModAcc) (line : String) : GoModAcc :=
  let trimmed := jsTrim line
  if jsStartsWith trimmed "module " then
    { st with moduleName := some (jsTrim (jsSliceFrom trimmed 7)) }
  else if jsStartsWith trimmed "go " then
    { st with goVersion := some (jsTrim (jsSliceFrom trimmed 3)) }
  else if trimmed == "require (" then
    { st with inRequireBlock := true }
  else if trimmed == ")" && st.inRequireBlock then
    { st with inRequireBlock := false }
  else if jsStartsWith trimmed "require " && !jsIncludes trimmed "(" then
    match jsSplitWs (jsTrim (jsSliceFrom trimmed 8)) with
    | n :: v :: _ =>
      { st with dependencies := st.dependencies ++ [⟨n, v, false, false⟩] }
    | _ => st
  else if st.inRequireBlock && trimmed != "" && !jsStartsWith trimmed "//" then
    let isInd := jsIncludes trimmed "// indirect"
    let cleanLine := jsTrim (jsReplaceFirst trimmed "// indirect" "")
    match jsSplitWs cleanLine with
    | n :: v :: _ =>
      { st with dependencies := st.dependencies ++ [⟨n, v, false, isInd⟩] }
    | _ => st
  else st

/-- `parseGoMod`: line-by-line fold over the manifest content. -/
def parseGoMod (content : String) : GoModAcc :=
  (jsSplitChar content '\n').foldl parseGoModLine ⟨none, none, [], false⟩

/- ## JSON and TOML value spaces -/

/-- A JSON document as produced by the external `JSON.parse` builtin.
Numeric payloads are carried as integers; no code path of the sources
ever consumes a numeric JSON value, so double rounding is irrelevant
here. -/
inductive Json where
  | null
  | bool (b : Bool)
  | num (n : Int)
  | str (s : String)
  | arr (xs : List Json)
  | obj (fields : List (String × Json))

/-- Dynamic property access `v[k]`: defined on objects, `undefined`
(absent) on every other shape — exactly as a property read on a
primitive or array is `undefined` for non-index keys. -/
def Json.get? : Json → String → Option Json
  | .obj fields, k => (fields.find? (fun f => f.1 == k)).map (·.2)
  | _, _ => none

/-- `typeof v === "string"` extraction. -/
def Json.asStr? : Json → Option String
  | .str s => some s
  | _ => none

/-- JavaScript truthiness of a JSON value. -/
def Json.truthy : Json → Bool
  | .null => false
  | .bool b => b
  | .num n => n != 0
  | .str s => s != ""
  | .arr _ => true
  | .obj _ => true

/-- `Object.entries(v)`: the fields of an object, the indexed elements
of an array, the indexed characters of a string, nothing for a
primitive. -/
def Json.entries : Json → List (String × Json)
  | .obj fields => fields
  | .arr xs => xs.enum.map (fun p => (Nat.repr p.1, p.2))
  | .str s => s.data.enum.map (fun p => (Nat.repr p.1, Json.str ⟨[p.2]⟩))
  | _ => []

/-- `Object.entries` read through a `Record<string, string>` interface
cast: the string-valued fields.  A non-string field value lies outside
the unchecked cast of the sources (which would record the raw value);
such documents are outside the modelled domain. -/
def Json.strEntries (v : Json) : List (String × String) :=
  v.entries.filterMap (fun kv => (Json.asStr? kv.2).map (fun s => (kv.1, s)))

/-- An array read through a `string[]` interface cast: the string
elements.  Non-array or non-string-element values lie outside the
unchecked cast (iterating them, the source would yield characters for a
string and throw for other primitives). -/
def Json.strItems : Json → List String
  | .arr xs => xs.filterMap Json.asStr?
  | _ => []

/-- `x || d` for a JSON field read through a `string` interface cast:
an absent field, a non-string field (outside the cast) and the empty
string all take the fallback. -/
def jsonStrOrElse (o : Option Json) (d : String) : String :=
  match o with
  | some (.str s) => if s = "" then d else s
  | _ => d

/-- The value space of the reduced TOML reader `parseToml` of
`utils/fs.ts`: key/value lines produce strings (quoted or raw
fallback), booleans, non-negative integers or arrays of non-empty
strings; nested tables arise only from dotted section headers, and the
top level is always a table. -/
inductive TomlV where
  | str (s : String)
  | bool (b : Bool)
  | int (n : Nat)
  | arr (items : List String)
  | table (fields : List (String × TomlV))

/-- Dynamic property access `t[k]` on a parsed TOML value: defined on
tables, absent on every other shape. -/
def TomlV.get? : TomlV → String → Option TomlV
  | .table fields, k => (fields.find? (fun f => f.1 == k)).map (·.2)
  | _, _ => none

/-- `typeof v === "string"` extraction. -/
def TomlV.asStr? : TomlV → Option String
  | .str s => some s
  | _ => none

/-- JavaScript truthiness of a parsed TOML value. -/
def tomlTruthy : TomlV → Bool
  | .str s => s != ""
  | .bool b => b
  | .int n => n != 0
  | .arr _ => true
  | .table _ => true

/- ## File-system primitives and `utils/fs.ts` -/

/-- One `Dirent` as returned by `readdir(..., { withFileTypes: true })`. -/
structure DirEntryV where
  name : String
  isDirectory : Bool
  deriving DecidableEq, Repr

/-- The external effects behind `utils/fs.ts` and the monorepo
detectors, as oracles: the node `access`, `readFile` and `readdir`
primitives and the ECMAScript `JSON.parse` builtin.  `none` models a
thrown error (always caught by the callers below).  The helper
functions of `utils/fs.ts` themselves — `exists`, `readJson`,
`readText`, `readLines`, `parseToml`, `readToml` — are repository code
and are translated below. -/
structure FS where
  access : String → Bool
  readFile : String → Option String
  jsonParse : String → Option Json
  readdir : String → Option (List DirEntryV)

/-- `exists` of `utils/fs.ts` (renamed here to avoid clashing with
Lean's existential syntax): `access(path, F_OK)` succeeding. -/
def fsExists (fs : FS) (path : String) : Bool :=
  fs.access path

/-- `readText`: the file content, or `null` when `readFile` throws. -/
def readText (fs : FS) (path : String) : Option String :=
  fs.readFile path

/-- `readJson`: read the file and `JSON.parse` it; `null` when either
step throws. -/
def readJson (fs : FS) (path : String) : Option Json :=
  match fs.readFile path with
  | none => none
  | some content => fs.jsonParse content

/-- `readLines`: the non-blank lines of a readable file (an unreadable
or empty file yields no lines). -/
def readLines (fs : FS) (path : String) : List String :=
  match readText fs path with
  | none => []
  | some content =>
    if content = "" then []
    else (jsSplitChar content '\n').filter (fun line => jsTrim line != "")

/-- `readText` composed with JavaScript truthiness: both a read failure
and an empty file fail an `if (!content)` guard. -/
def FS.readTextTruthy (fs : FS) (p : String) : Option String :=
  match readText fs p with
  | some s => if s = "" then none else some s
  | none => none

/- ## The reduced TOML reader `parseToml` -/

/-- Ordered-record lookup (first matching key, as `find?` — the parser
never creates duplicate keys, later assignments update in place). -/
def tableLookup (t : List (String × TomlV)) (k : String) : Option TomlV :=
  (t.find? (fun f => f.1 == k)).map (·.2)

/-- JavaScript object assignment `record[k] = v`: update the existing
key in place (keeping its insertion position) or append a new one. -/
def tableSet : List (String × TomlV) → String → TomlV → List (String × TomlV)
  | [], k, v => [(k, v)]
  | (k', v') :: rest, k, v =>
    if k' == k then (k', v) :: rest else (k', v') :: tableSet rest k v

/-- The dotted-section walk of `parseToml`:
`for (const part of parts) { if (!target[part]) target[part] = {}; target = target[part] }`.
Returns the updated root together with `true` when the walk ends on a
table (the next key/value lines land there) or `false` when it ends on
a truthy non-table (a subsequent key assignment would then throw, see
`parseTomlLine`); `none` models the `TypeError` thrown when the walk
itself assigns `{}` through a non-object (for an array value the source
would instead mutate the array object — a corner no input of this
grammar reaches, since only a key/value line can produce an array and a
section segment revisits it only as written). -/
def ensurePath : List String → List (String × TomlV) → Option (List (String × TomlV) × Bool)
  | [], t => some (t, true)
  | part :: rest, t =>
    match tableLookup t part with
    | some v =>
      if tomlTruthy v then
        match v with
        | .table sub =>
          match ensurePath rest sub with
          | some (sub2, ok) => some (tableSet t part (.table sub2), ok)
          | none => none
        | _ => if rest.isEmpty then some (t, false) else none
      else
        match ensurePath rest [] with
        | some (sub2, ok) => some (tableSet t part (.table sub2), ok)
        | none => none
    | none =>
      match ensurePath rest [] with
      | some (sub2, ok) => some (tableSet t part (.table sub2), ok)
      | none => none

/-- `currentSection[key] = value` with `currentSection` identified by
its section path (the parser's section references are always reachable
by exactly one path, so the path determines the reference). -/
def assignAtPath : List String → List (String × TomlV) → String → TomlV →
    List (String × TomlV)
  | [], t, key, v => tableSet t key v
  | part :: rest, t, key, v =>
    match tableLookup t part with
    | some (.table sub) => tableSet t part (.table (assignAtPath rest sub key v))
    | _ => t

/-- `/^\[([^\]]+)\]$/`: the whole trimmed line is a bracketed,
non-empty section name containing no closing bracket. -/
def sectionInner? (trimmed : String) : Option String :=
  match trimmed.data with
  | '[' :: rest =>
    match rest.getLast? with
    | some ']' =>
      let inner := rest.dropLast
      if !inner.isEmpty && inner.all (fun c => c != ']') then some ⟨inner⟩ else none
    | _ => none
  | _ => none

/-- `item.trim().replace(/^["']|["']$/g, "")`: remove one leading and
one trailing quote character (double or single, independently). -/
def stripQuoteEnds (t : String) : String :=
  let isQ := fun (c : Char) => c = '"' || c = '\''
  let t1 : String :=
    match t.data with
    | c :: rest => if isQ c then ⟨rest⟩ else t
    | [] => t
  match t1.data.getLast? with
  | some c => if isQ c then ⟨t1.data.dropLast⟩ else t1
  | none => t1

/-- `rawValue.slice(1, -1)`. -/
def sliceInner (s : String) : String :=
  ⟨(s.data.drop 1).take (s.data.length - 2)⟩

/-- Decimal value of an all-digit string (`parseInt(rawValue, 10)` on a
`/^\d+$/` match; digit strings beyond double precision, where `parseInt`
would round, are outside the modelled domain). -/
def decimalNat (cs : List Char) : Nat :=
  cs.foldl (fun n c => n * 10 + (c.toNat - '0'.toNat)) 0

/-- The value grammar of one key/value line of `parseToml`: quoted
string, `true`/`false`, all-digit integer, inline array of quote-
stripped non-empty items, and otherwise the raw string itself. -/
def parseTomlValue (rawValue : String) : TomlV :=
  if (jsStartsWith rawValue "\"" && jsEndsWith rawValue "\"") ||
     (jsStartsWith rawValue "'" && jsEndsWith rawValue "'") then
    .str (sliceInner rawValue)
  else if rawValue == "true" then .bool true
  else if rawValue == "false" then .bool false
  else if rawValue != "" && rawValue.data.all Char.isDigit then
    .int (decimalNat rawValue.data)
  else if jsStartsWith rawValue "[" && jsEndsWith rawValue "]" then
    .arr (((jsSplitChar (sliceInner rawValue) ',').map
            (fun item => stripQuoteEnds (jsTrim item))).filter (fun s => s != ""))
  else .str rawValue

/-- One iteration of the line loop of `parseToml`.  The state is the
root table plus the current section (`some path` when it is a table,
`none` when the last section header landed on a truthy non-table — a
key assignment there is the strict-mode `TypeError` the enclosing
`readToml` catches, modelled as the outer `none`). -/
def parseTomlLine (st : List (String × TomlV) × Option (List String)) (line : String) :
    Option (List (String × TomlV) × Option (List String)) :=
  let trimmed := jsTrim line
  if trimmed == "" || jsStartsWith trimmed "#" then some st
  else
    match sectionInner? trimmed with
    | some currentSectionName =>
      let parts := jsSplitChar currentSectionName '.'
      match ensurePath parts st.1 with
      | some (root2, ok) => some (root2, if ok then some parts else none)
      | none => none
    | none =>
      match findSplitFirst ['='] trimmed.data with
      | some (before, after) =>
        if before.isEmpty then some st
        else
          let key := jsTrim ⟨before⟩
          let rawValue := jsTrim ⟨after⟩
          if rawValue == "" then some st
          else
            match st.2 with
            | some parts => some (assignAtPath parts st.1 key (parseTomlValue rawValue), st.2)
            | none => none
      | none => some st

/-- `parseToml`: fold the line grammar over the content; `none` models
the thrown `TypeError` that `readToml` catches. -/
def parseToml (content : String) : Option (List (String × TomlV)) :=
  ((jsSplitChar content '\n').foldl
      (fun st line =>
        match st with
        | some s => parseTomlLine s line
        | none => none) (some ([], some []))).map (·.1)

/-- `readToml`: read, reject falsy content, parse; `null` on a read
failure, empty file or parse exception. -/
def readToml (fs : FS) (path : String) : Option TomlV :=
  match readText fs path with
  | none => none
  | some content =>
    if content = "" then none
    else (parseToml content).map .table

/- ## Node parser (`src/parsers/node.ts`) -/

/-- `detectPackageManager`: lockfile precedence bun → pnpm → yarn → npm. -/
def detectPackageManager (fs : FS) (dir : String) : PackageManager :=
  if fsExists fs (joinPath dir "bun.lockb") then .bun
  else if fsExists fs (joinPath dir "pnpm-lock.yaml") then .pnpm
  else if fsExists fs (joinPath dir "yarn.lock") then .yarn
  else .npm

/-- `parseTSConfig`: each field is copied only when present and truthy
(`strict` when not `undefined`); the record is dropped entirely when no
field was copied.  The fields are read through the `TSConfigJson`
interface cast: a present field of the wrong JSON shape is outside the
cast (the source would record the raw value) and is read as its
interface-conformant part here. -/
def parseTSConfig (fs : FS) (dir : String) : Option TSConfig :=
  match readJson fs (joinPath dir "tsconfig.json") with
  | none => none
  | some config =>
    let co := config.get? "compilerOptions"
    let strField : String → Option String := fun k =>
      match co.bind (·.get? k) with
      | some (.str s) => if s = "" then none else some s
      | _ => none
    let result : TSConfig :=
      { paths :=
          match co.bind (·.get? "paths") with
          | some v =>
            if v.truthy then
              some (v.entries.map (fun kv => (kv.1, Json.strItems kv.2)))
            else none
          | none => none
        baseUrl := strField "baseUrl"
        target := strField "target"
        module := strField "module"
        strict :=
          match co.bind (·.get? "strict") with
          | some (.bool b) => some b
          | _ => none
        jsx := strField "jsx"
        references :=
          match config.get? "references" with
          | some v =>
            if v.truthy then
              some (match v with
                    | .arr xs => xs.filterMap (fun x => (x.get? "path").bind Json.asStr?)
                    | _ => [])
            else none
          | none => none }
    if result.paths.isSome || result.baseUrl.isSome || result.target.isSome ||
       result.module.isSome || result.strict.isSome || result.jsx.isSome ||
       result.references.isSome then
      some result
    else none

/-- `parseNodeProject`: merge `dependencies` and `devDependencies`
(read through the `Record<string, string>` cast); the `node` sub-record
is always populated. -/
def parseNodeProject (fs : FS) (dir : String) : ProjectInfo :=
  let pkg := readJson fs (joinPath dir "package.json")
  let deps : List Dependency :=
    (match pkg.bind (·.get? "dependencies") with
     | some v =>
       if v.truthy then v.strEntries.map (fun kv => ⟨kv.1, kv.2, false, false⟩) else []
     | none => []) ++
    (match pkg.bind (·.get? "devDependencies") with
     | some v =>
       if v.truthy then v.strEntries.map (fun kv => ⟨kv.1, kv.2, true, false⟩) else []
     | none => [])
  { type := .node
    dependencies := deps
    node := some
      { name := (pkg.bind (·.get? "name")).bind Json.asStr?
        version := (pkg.bind (·.get? "version")).bind Json.asStr?
        packageManager := detectPackageManager fs dir
        tsconfig := parseTSConfig fs dir }
    python := none, go := none, rust := none }

/- ## Python parser (`src/parsers/python.ts`) -/

/-- Character class of `[a-zA-Z0-9_-]`. -/
def isNameChar (c : Char) : Bool :=
  c.isAlpha || c.isDigit || c = '_' || c = '-'

/-- Character class of `[=<>~!]`. -/
def isOpChar (c : Char) : Bool :=
  c = '=' || c = '<' || c = '>' || c = '~' || c = '!'

/-- First match of `/[=<>~!]+\s*([0-9][^\s,;]*)/`: as the three character
classes are disjoint the regex backtracking never succeeds with a
shortened operator run, so a left-to-right scan for a maximal operator
run followed by optional whitespace and a digit is exact. -/
def findVersionMatch : List Char → Option String
  | [] => none
  | c :: cs =>
    if isOpChar c then
      let afterOps := (c :: cs).dropWhile isOpChar
      let afterWs := afterOps.dropWhile Char.isWhitespace
      match afterWs with
      | d :: _ =>
        if d.isDigit then
          some ⟨afterWs.takeWhile (fun x => !(x.isWhitespace || x = ',' || x = ';'))⟩
        else findVersionMatch cs
      | [] => findVersionMatch cs
    else findVersionMatch cs

/-- First match of `/[0-9.]+/` (used on `requires-python` and Poetry's
`python` constraint). -/
def findNumRun : List Char → Option String
  | [] => none
  | c :: cs =>
    if c.isDigit || c = '.' then
      some ⟨(c :: cs).takeWhile (fun x => x.isDigit || x = '.')⟩
    else findNumRun cs

/-- `parseRequirementLine`: one requirement-specifier line. -/
def parseRequirementLine (line : String) : Option Dependency :=
  let trimmed := jsTrim line
  if trimmed == "" || jsStartsWith trimmed "#" || jsStartsWith trimmed "-" then none
  else
    let nameRun := trimmed.data.takeWhile isNameChar
    if nameRun.isEmpty then none
    else
      let rest0 := trimmed.data.drop nameRun.length
      let rest :=
        match rest0 with
        | '[' :: t =>
          match findSplitFirst [']'] t with
          | some (_, afterBracket) => afterBracket
          | none => rest0
        | _ => rest0
      let version :=
        match findVersionMatch rest with
        | some v => v
        | none => "latest"
      some ⟨⟨nameRun⟩, version, false, false⟩

/-- `parseRequirementsTxt`. -/
def parseRequirementsTxt (fs : FS) (dir : String) : List Dependency :=
  match fs.readTextTruthy (joinPath dir "requirements.txt") with
  | none => []
  | some content =>
    (jsSplitChar content '\n').foldl
      (fun acc line =>
        match parseRequirementLine line with
        | some d => acc ++ [d]
        | none => acc) []

/-- Character class of `/[\^~>=<]/g` (Poetry version-specifier stripping). -/
def isPyOpChar (c : Char) : Bool :=
  c = '^' || c = '~' || c = '>' || c = '=' || c = '<'

structure PyprojectResult where
  deps : List Dependency
  pythonVersion : Option String
  buildSystem : Option String
  deriving DecidableEq, Repr

/-- `parsePyproject`.  Dynamic accesses through the `as Record` casts
of the source are modelled by `TomlV.get?`.  On the value space
`parseToml` actually produces, array elements are always strings, so
the source's per-element `typeof dep === "string"` test is vacuous;
iteration of the dependency sections is modelled for table values (a
truthy non-table there would send the source through `Object.entries`
on a primitive, outside this grammar). -/
def parsePyproject (fs : FS) (dir : String) : PyprojectResult :=
  match readToml fs (joinPath dir "pyproject.toml") with
  | none => ⟨[], none, none⟩
  | some toml =>
    let buildSystem0 : Option String :=
      match ((toml.get? "build-system").bind (·.get? "build-backend")).bind TomlV.asStr? with
      | some bb =>
        if jsIncludes bb "poetry" then some "poetry"
        else if jsIncludes bb "hatch" then some "hatch"
        else if jsIncludes bb "flit" then some "flit"
        else if jsIncludes bb "setuptools" then some "setuptools"
        else none
      | none => none
    let projectPart : List Dependency × Option String :=
      match toml.get? "project" with
      | none => ([], none)
      | some project =>
        if !tomlTruthy project then ([], none)
        else
          let pyVer : Option String :=
            match (project.get? "requires-python").bind TomlV.asStr? with
            | some rp => findNumRun rp.data
            | none => none
          let deps1 : List Dependency :=
            match project.get? "dependencies" with
            | some (.arr xs) =>
              xs.foldl
                (fun acc s =>
                  match parseRequirementLine s with
                  | some d => acc ++ [d]
                  | none => acc) []
            | _ => []
          let deps2 : List Dependency :=
            match (project.get? "optional-dependencies").bind (·.get? "dev") with
            | some (.arr xs) =>
              xs.foldl
                (fun acc s =>
                  match parseRequirementLine s with
                  | some d => acc ++ [{ d with isDev := true }]
                  | none => acc) []
            | _ => []
          (deps1 ++ deps2, pyVer)
    match (toml.get? "tool").bind (·.get? "poetry") with
    | none => ⟨projectPart.1, projectPart.2, buildSystem0⟩
    | some poetry =>
      if !tomlTruthy poetry then ⟨projectPart.1, projectPart.2, buildSystem0⟩
      else
        let main : List Dependency × Option String :=
          match poetry.get? "dependencies" with
          | some (.table entries) =>
            entries.foldl
              (fun acc kv =>
                if kv.1 == "python" then
                  (acc.1,
                   match kv.2 with
                   | .str s =>
                     match findNumRun s.data with
                     | some m => some m
                     | none => acc.2
                   | _ => acc.2)
                else
                  let version :=
                    match kv.2 with
                    | .str s => jsRemoveChars s isPyOpChar
                    | .table _ =>
                      match (kv.2.get? "version").bind TomlV.asStr? with
                      | some v => jsRemoveChars v isPyOpChar
                      | none => "latest"
                    | _ => "latest"
                  (acc.1 ++ [⟨kv.1, version, false, false⟩], acc.2)) ([], none)
          | _ => ([], none)
        let devDeps : List Dependency :=
          match ((poetry.get? "group").bind (·.get? "dev")).bind (·.get? "dependencies") with
          | some (.table entries) =>
            entries.map
              (fun kv =>
                ⟨kv.1,
                 (match kv.2 with
                  | .str s => jsRemoveChars s isPyOpChar
                  | _ => "latest"), true, false⟩)
          | _ => []
        ⟨projectPart.1 ++ main.1 ++ devDeps,
         (match main.2 with | some v => some v | none => projectPart.2),
         some "poetry"⟩

/-- `parsePipfile`. -/
def parsePipfile (fs : FS) (dir : String) : List Dependency :=
  match readToml fs (joinPath dir "Pipfile") with
  | none => []
  | some toml =>
    let fromSection : Option TomlV → Bool → List Dependency := fun sec isDev =>
      match sec with
      | some (.table entries) =>
        entries.map
          (fun kv =>
            ⟨kv.1,
             (match kv.2 with
              | .str s => if s == "*" then "latest" else s
              | _ => "latest"), isDev, false⟩)
      | _ => []
    fromSection (toml.get? "packages") false ++
      fromSection (toml.get? "dev-packages") true

/-- `parsePythonProject`: pyproject → Pipfile → requirements cascade; a
truthy `.python-version` file overrides; the `python` sub-record is
always populated. -/
def parsePythonProject (fs : FS) (dir : String) : ProjectInfo :=
  let manifest : List Dependency × Option String × Option String :=
    if fsExists fs (joinPath dir "pyproject.toml") then
      let r := parsePyproject fs dir
      (r.deps, r.pythonVersion, r.buildSystem)
    else if fsExists fs (joinPath dir "Pipfile") then
      (parsePipfile fs dir, none, some "pipenv")
    else if fsExists fs (joinPath dir "requirements.txt") then
      (parseRequirementsTxt fs dir, none, some "pip")
    else ([], none, none)
  let pythonVersion : Option String :=
    match fs.readTextTruthy (joinPath dir ".python-version") with
    | some s => some (jsTrim s)
    | none => manifest.2.1
  { type := .python
    dependencies := manifest.1
    node := none
    python := some ⟨pythonVersion, manifest.2.2⟩
    go := none, rust := none }

/- ## Go project wrapper (`src/parsers/go.ts`) -/

/-- `parseGoProject`: the `go` sub-record is present only when the
manifest read was truthy. -/
def parseGoProject (fs : FS) (dir : String) : ProjectInfo :=
  match fs.readTextTruthy (joinPath dir "go.mod") with
  | none =>
    { type := .go, dependencies := [], node := none, python := none
      go := none, rust := none }
  | some content =>
    let r := parseGoMod content
    { type := .go
      dependencies := r.dependencies
      node := none, python := none
      go := some ⟨r.moduleName, r.goVersion⟩
      rust := none }

/- ## Rust parser (`src/parsers/rust.ts`) -/

/-- `parseDependencies` of the Rust parser: a table value may be a bare
version string or a table with a string `version` key (the latter
arises from a dotted `[dependencies.name]` section under `parseToml`,
which never produces inline tables — an inline-table line is kept as a
raw string); every other shape yields `"latest"`. -/
def parseRustDependencies (deps : Option TomlV) (isDev : Bool) : List Dependency :=
  match deps with
  | some (.table entries) =>
    entries.map
      (fun kv =>
        ⟨kv.1,
         (match kv.2 with
          | .str s => s
          | .table _ =>
            match (kv.2.get? "version").bind TomlV.asStr? with
            | some v => v
            | none => "latest"
          | _ => "latest"), isDev, false⟩)
  | _ => []

/-- `parseRustProject`: the `rust` sub-record is present only when the
manifest parsed. -/
def parseRustProject (fs : FS) (dir : String) : ProjectInfo :=
  match readToml fs (joinPath dir "Cargo.toml") with
  | none =>
    { type := .rust, dependencies := [], node := none, python := none
      go := none, rust := none }
  | some cargo =>
    { type := .rust
      dependencies :=
        parseRustDependencies (cargo.get? "dependencies") false ++
        parseRustDependencies (cargo.get? "dev-dependencies") true ++
        parseRustDependencies (cargo.get? "build-dependencies") true
      node := none, python := none, go := none
      rust := some
        { name := ((cargo.get? "package").bind (·.get? "name")).bind TomlV.asStr?
          edition := ((cargo.get? "package").bind (·.get? "edition")).bind TomlV.asStr?
          rustVersion := ((cargo.get? "package").bind (·.get? "rust-version")).bind TomlV.asStr? } }

/- ## Project-type detector and dispatcher (`src/parsers/index.ts`) -/

/-- The ordered marker-file check list of `detectProjectType`. -/
def projectTypeChecks : List (String × ProjectType) :=
  [("package.json", .node),
   ("Cargo.toml", .rust),
   ("go.mod", .go),
   ("pyproject.toml", .python),
   ("requirements.txt", .python),
   ("Pipfile", .python),
   ("setup.py", .python)]

/-- `detectProjectType`: first marker file that exists wins. -/
def detectProjectType (fs : FS) (dir : String) : ProjectType :=
  match projectTypeChecks.find? (fun check => fsExists fs (joinPath dir check.1)) with
  | some check => check.2
  | none => .unknown

/-- `parseProject`: dispatch on the detected type. -/
def parseProject (fs : FS) (dir : String) (type : ProjectType) : ProjectInfo :=
  match type with
  | .node => parseNodeProject fs dir
  | .python => parsePythonProject fs dir
  | .go => parseGoProject fs dir
  | .rust => parseRustProject fs dir
  | .unknown =>
    { type := .unknown, dependencies := [], node := none, python := none
      go := none, rust := none }

/- ## Monorepo detector (`src/monorepo/detect.ts`) -/

/-- `pattern.replace(/\/\*$/, "").replace(/\*$/, "")`: strip one trailing
`/*`, then one trailing `*`. -/
def stripGlobSuffix (pattern : String) : String :=
  let s1 :=
    if jsEndsWith pattern "/*" then ⟨pattern.data.take (pattern.data.length - 2)⟩
    else pattern
  if jsEndsWith s1 "*" then ⟨s1.data.take (s1.data.length - 1)⟩ else s1

/-- `findPackagesFromGlobs`: resolve workspace glob patterns to the
immediate subdirectories of each stripped base directory. -/
def findPackagesFromGlobs (fs : FS) (dir : String) (patterns : List String) :
    List WorkspacePackage :=
  patterns.foldl
    (fun acc pattern =>
      let cleanPattern := stripGlobSuffix pattern
      let packagesDir := joinPath dir cleanPattern
      if !fsExists fs packagesDir then acc
      else
        match fs.readdir packagesDir with
        | none => acc
        | some items =>
          acc ++
            items.foldl
              (fun acc2 item =>
                if !item.isDirectory then acc2
                else
                  let pkgPath := joinPath packagesDir item.name
                  let pkgJson := readJson fs (joinPath pkgPath "package.json")
                  acc2 ++ [⟨jsonStrOrElse (pkgJson.bind (·.get? "name")) item.name,
                            joinPath cleanPattern item.name, none⟩]) []) []

/-- `detectNpmWorkspaces`: requires a truthy `workspaces` field (array
form, or object form's `packages` field, read through the `string[]`
cast). -/
def detectNpmWorkspaces (fs : FS) (dir : String) : Option MonorepoInfo :=
  match readJson fs (joinPath dir "package.json") with
  | none => none
  | some pkg =>
    match pkg.get? "workspaces" with
    | none => none
    | some ws =>
      if !ws.truthy then none
      else
        let patterns :=
          match ws with
          | .arr _ => ws.strItems
          | _ =>
            match ws.get? "packages" with
            | some v => if v.truthy then v.strItems else []
            | none => []
        some ⟨.npmWorkspaces, findPackagesFromGlobs fs dir patterns⟩

/-- `detectPnpmWorkspace`: minimal line-based reader of the
`packages:` list of `pnpm-workspace.yaml`. -/
def detectPnpmWorkspace (fs : FS) (dir : String) : Option MonorepoInfo :=
  match fs.readTextTruthy (joinPath dir "pnpm-workspace.yaml") with
  | none => none
  | some content =>
    let st :=
      (jsSplitChar content '\n').foldl
        (fun (st : List String × Bool) line =>
          let trimmed := jsTrim line
          if trimmed == "packages:" then (st.1, true)
          else if st.2 && jsStartsWith trimmed "- " then
            (st.1 ++ [jsRemoveChars (jsSliceFrom trimmed 2)
                        (fun c => c = '\'' || c = '"' || c = '`')], st.2)
          else if st.2 && !jsStartsWith trimmed "-" && trimmed != "" then
            (st.1, false)
          else st) ([], false)
    some ⟨.pnpm, findPackagesFromGlobs fs dir st.1⟩

/-- `detectTurbo`: requires `turbo.json`; package discovery is delegated
to the npm-workspaces check, else the pnpm check, relabelled `turbo`. -/
def detectTurbo (fs : FS) (dir : String) : Option MonorepoInfo :=
  if !fsExists fs (joinPath dir "turbo.json") then none
  else
    match detectNpmWorkspaces fs dir with
    | some workspaces => some ⟨.turbo, workspaces.packages⟩
    | none =>
      match detectPnpmWorkspace fs dir with
      | some pnpm => some ⟨.turbo, pnpm.packages⟩
      | none => none

/-- `detectNx`: requires `nx.json`; scans the three conventional
subdirectories for immediate subdirectories. -/
def detectNx (fs : FS) (dir : String) : Option MonorepoInfo :=
  if !fsExists fs (joinPath dir "nx.json") then none
  else
    let packages :=
      (["packages", "apps", "libs"] : List String).foldl
        (fun acc subdir =>
          let subdirPath := joinPath dir subdir
          if !fsExists fs subdirPath then acc
          else
            match fs.readdir subdirPath with
            | none => acc
            | some items =>
              acc ++
                items.foldl
                  (fun acc2 item =>
                    if !item.isDirectory then acc2
                    else
                      let pkgJson := readJson fs
                        (joinPath (joinPath subdirPath item.name) "package.json")
                      acc2 ++ [⟨jsonStrOrElse (pkgJson.bind (·.get? "name")) item.name,
                                joinPath subdir item.name, none⟩]) []) []
    some ⟨.nx, packages⟩

/-- `detectLerna`: requires a parseable `lerna.json`; a falsy
`packages` field falls back to the `packages/*` glob. -/
def detectLerna (fs : FS) (dir : String) : Option MonorepoInfo :=
  match readJson fs (joinPath dir "lerna.json") with
  | none => none
  | some lernaJson =>
    let patterns :=
      match lernaJson.get? "packages" with
      | some v => if v.truthy then v.strItems else ["packages/*"]
      | none => ["packages/*"]
    some ⟨.lerna, findPackagesFromGlobs fs dir patterns⟩

/-- `detectGoWorkspace`: parses the `use` directive of `go.work`
(single-line or parenthesized block). -/
def detectGoWorkspace (fs : FS) (dir : String) : Option MonorepoInfo :=
  match fs.readTextTruthy (joinPath dir "go.work") with
  | none => none
  | some content =>
    let st :=
      (jsSplitChar content '\n').foldl
        (fun (st : List WorkspacePackage × Bool) line =>
          let trimmed := jsTrim line
          if trimmed == "use (" then (st.1, true)
          else if trimmed == ")" && st.2 then (st.1, false)
          else if jsStartsWith trimmed "use " && !jsIncludes trimmed "(" then
            let path := jsTrim (jsSliceFrom trimmed 4)
            (st.1 ++ [⟨path, path, some .go⟩], st.2)
          else if st.2 && trimmed != "" then
            (st.1 ++ [⟨trimmed, trimmed, some .go⟩], st.2)
          else st) ([], false)
    some ⟨.goWorkspace, st.1⟩

/-- `detectCargoWorkspace`: parses `workspace.members` of `Cargo.toml`
(under `parseToml` the members value, when an array, is a list of
strings); a member ending in `/*` expands to every immediate
subdirectory.  A truthy non-array `members` value would send the source
iterating a primitive (characters for a string, a `TypeError`
otherwise), outside the grammar `parseToml` gives these manifests. -/
def detectCargoWorkspace (fs : FS) (dir : String) : Option MonorepoInfo :=
  match readToml fs (joinPath dir "Cargo.toml") with
  | none => none
  | some cargo =>
    match (cargo.get? "workspace").bind (·.get? "members") with
    | some (.arr members) =>
      let packages :=
        members.foldl
          (fun acc member =>
            let memberPath :=
              if jsEndsWith member "/*" then
                (⟨member.data.take (member.data.length - 2)⟩ : String)
              else member
            if jsEndsWith member "/*" then
              let memberDir := joinPath dir memberPath
              if !fsExists fs memberDir then acc
              else
                match fs.readdir memberDir with
                | none => acc
                | some items =>
                  acc ++
                    items.foldl
                      (fun acc2 item =>
                        if !item.isDirectory then acc2
                        else
                          let cargoToml := readToml fs
                            (joinPath (joinPath memberDir item.name) "Cargo.toml")
                          let pkgName := (cargoToml.bind
                            (fun t => (t.get? "package").bind (·.get? "name"))).bind
                              TomlV.asStr?
                          acc2 ++ [⟨jsOrElse pkgName item.name,
                                    joinPath memberPath item.name, some .rust⟩]) []
            else
              let cargoToml := readToml fs
                (joinPath (joinPath dir member) "Cargo.toml")
              let pkgName := (cargoToml.bind
                (fun t => (t.get? "package").bind (·.get? "name"))).bind TomlV.asStr?
              acc ++ [⟨jsOrElse pkgName member, member, some .rust⟩]) []
      some ⟨.cargoWorkspace, packages⟩
    | _ => none

/-- `detectMonorepo`: the seven strategies tried in source order, first
success wins. -/
def detectMonorepo (fs : FS) (dir : String) : Option MonorepoInfo :=
  match detectTurbo fs dir with
  | some turbo => some turbo
  | none =>
    match detectNx fs dir with
    | some nx => some nx
    | none =>
      match detectLerna fs dir with
      | some lerna => some lerna
      | none =>
        match detectPnpmWorkspace fs dir with
        | some pnpm => some pnpm
        | none =>
          match detectNpmWorkspaces fs dir with
          | some npm => some npm
          | none =>
            match detectGoWorkspace fs dir with
            | some goWorkspace => some goWorkspace
            | none =>
              match detectCargoWorkspace fs dir with
              | some cargo => some cargo
              | none => none

/- ## Directory scanner (`src/core/scanner.ts`) -/

/-- A filesystem tree node as seen by the walk: `size` is the best-effort
`stat` result (`none` models a stat failure). -/
inductive FsNode where
  | file (name : String) (size : Option Nat)
  | dir (name : String) (size : Option Nat) (children : List FsNode)

def FsNode.name : FsNode → String
  | .file n _ => n
  | .dir n _ _ => n

def FsNode.size : FsNode → Option Nat
  | .file _ s => s
  | .dir _ s _ => s

def FsNode.isDirectory : FsNode → Bool
  | .file _ _ => false
  | .dir _ _ _ => true

def FsNode.children : FsNode → List FsNode
  | .file _ _ => []
  | .dir _ _ c => c

/-- The comparator `(a, b) => a.name.localeCompare(b.name)` as a sort
relation on tree nodes. -/
def nodeNameLe (a b : FsNode) : Prop := strLeB a.name.data b.name.data = true

instance : DecidableRel nodeNameLe := fun a b => inferInstanceAs (Decidable (_ = true))

instance : IsTotal FsNode nodeNameLe := ⟨fun a b => strLeB_total a.name.data b.name.data⟩

instance : IsTrans FsNode nodeNameLe := ⟨fun _ _ _ => strLeB_trans⟩

/-- The default-exclude list `DEFAULT_EXCLUDES`. -/
def DEFAULT_EXCLUDES : List String :=
  ["node_modules", ".git", "dist", "build", ".next", ".nuxt", ".output",
   "coverage", "__pycache__", ".pytest_cache", ".venv", "venv", ".env",
   "target", ".cache", ".turbo", ".DS_Store", "*.pyc", "*.pyo"]

/-- `loadGitignore`: read the root `.gitignore`, strip blank lines and
comments. -/
def loadGitignore (fs : FS) (dir : String) : List String :=
  match fs.readTextTruthy (joinPath dir ".gitignore") with
  | none => []
  | some content =>
    ((jsSplitChar content '\n').map jsTrim).filter
      (fun line => line != "" && !jsStartsWith line "#")

/-- `maxDepth !== undefined && depth > maxDepth`. -/
def stopAtDepth (maxDepth : Option Nat) (depth : Nat) : Bool :=
  match maxDepth with
  | none => false
  | some m => decide (m < depth)

/-- The focus skip test applied to a directory entry:
`focus && !relativePath.startsWith(focus) && !focus.startsWith(relativePath)`. -/
def focusSkipDir (focus : Option String) (relativePath : String) : Bool :=
  match focus with
  | none => false
  | some f =>
    if f = "" then false
    else !jsStartsWith relativePath f && !jsStartsWith f relativePath

/-- The focus skip test applied to a file entry:
`focus && !relativePath.startsWith(focus)`. -/
def focusSkipFile (focus : Option String) (relativePath : String) : Bool :=
  match focus with
  | none => false
  | some f =>
    if f = "" then false
    else !jsStartsWith relativePath f

/-- The per-directory item filter of `scanDirectory`: drop entries whose
root-relative path the ignore rule set matches. -/
def scanKept (ig : String → Bool) (items : List FsNode) (rel : String) : List FsNode :=
  items.filter (fun item => !ig (joinPath rel item.name))

/-- The sorted subdirectory group of one directory level. -/
def scanDirs (ig : String → Bool) (items : List FsNode) (rel : String) : List FsNode :=
  List.insertionSort nodeNameLe ((scanKept ig items rel).filter (·.isDirectory))

/-- The sorted file group of one directory level. -/
def scanFiles (ig : String → Bool) (items : List FsNode) (rel : String) : List FsNode :=
  List.insertionSort nodeNameLe ((scanKept ig items rel).filter (fun item => !item.isDirectory))

/-- The `FileEntry` pushed for a directory item. -/
def mkDirEntry (dirPath rel : String) (depth : Nat) (c : FsNode) : FileEntry :=
  { name := c.name, path := joinPath dirPath c.name,
    relativePath := joinPath rel c.name, isDirectory := true,
    depth := depth, size := c.size }

/-- The `FileEntry` pushed for a file item. -/
def mkFileEntry (dirPath rel : String) (depth : Nat) (c : FsNode) : FileEntry :=
  { name := c.name, path := joinPath dirPath c.name,
    relativePath := joinPath rel c.name, isDirectory := false,
    depth := depth, size := c.size }

/-- `scanDirectory`: the ignore-aware, depth- and focus-bounded
depth-first walk.  `items` are the children of the directory being
scanned, `dirPath`/`rel` its full and root-relative paths.  The fuel
argument only bounds the recursion depth. -/
def scanDirectory (ig : String → Bool) (maxDepth : Option Nat) (focus : Option String) :
    Nat → List FsNode → String → String → Nat → List FileEntry
  | 0, _, _, _, _ => []
  | fuel + 1, items, dirPath, rel, depth =>
    if stopAtDepth maxDepth depth then []
    else
      (scanDirs ig items rel).flatMap
        (fun c =>
          let relativePath := joinPath rel c.name
          if focusSkipDir focus relativePath then []
          else
            mkDirEntry dirPath rel depth c ::
              scanDirectory ig maxDepth focus fuel c.children
                (joinPath dirPath c.name) relativePath (depth + 1)) ++
      (scanFiles ig items rel).flatMap
        (fun c =>
          let relativePath := joinPath rel c.name
          if focusSkipFile focus relativePath then []
          else [mkFileEntry dirPath rel depth c])

/-- Modelled from the spec: the uniform focus rule ("`focus` is an
ancestor-or-descendant of the entry's relative path") applied to
directory and file entries alike; otherwise identical to
`scanDirectory`.  Used to exhibit the divergence of the source's file
branch. -/
def scanDirectoryUniform (ig : String → Bool) (maxDepth : Option Nat) (focus : Option String) :
    Nat → List FsNode → String → String → Nat → List FileEntry
  | 0, _, _, _, _ => []
  | fuel + 1, items, dirPath, rel, depth =>
    if stopAtDepth maxDepth depth then []
    else
      (scanDirs ig items rel).flatMap
        (fun c =>
          let relativePath := joinPath rel c.name
          if focusSkipDir focus relativePath then []
          else
            mkDirEntry dirPath rel depth c ::
              scanDirectoryUniform ig maxDepth focus fuel c.children
                (joinPath dirPath c.name) relativePath (depth + 1)) ++
      (scanFiles ig items rel).flatMap
        (fun c =>
          let relativePath := joinPath rel c.name
          if focusSkipDir focus relativePath then []
          else [mkFileEntry dirPath rel depth c])

/-- `ScanOptions` (optional fields of the TypeScript interface are
`Option`; `includeAll` is only ever tested for truthiness, where an
absent flag and `false` agree). -/
structure ScanOptions where
  dir : String
  ignore : Option (List String)
  includeAll : Bool
  depth : Option Nat
  focus : Option String

/-- The combined ignore pattern list assembled by `scan`: default
excludes (unless `includeAll`), then caller-supplied patterns, then
gitignore-derived patterns. -/
def scanPatterns (fs : FS) (options : ScanOptions) : List String :=
  (if !options.includeAll then DEFAULT_EXCLUDES else []) ++
  (match options.ignore with
   | some patterns => patterns
   | none => []) ++
  loadGitignore fs (jsOrElse (some options.dir) ".")

/-- Modelled from the spec: the third-party `ignore` rule engine — "a
path is included only if none of the combined rules match its
root-relative path" — with the individual pattern matcher abstract. -/
def ignoresSem (matchPattern : String → String → Bool) (patterns : List String)
    (relativePath : String) : Bool :=
  patterns.any (fun p => matchPattern p relativePath)

/-- `scan`: assemble the ignore rule set, walk the tree, and attach
project and monorepo metadata. -/
def scan (matchPattern : String → String → Bool) (fs : FS) (tree : List FsNode)
    (fuel : Nat) (options : ScanOptions) : ScanResult :=
  let dir := jsOrElse (some options.dir) "."
  let ig := ignoresSem matchPattern (scanPatterns fs options)
  { root := dir
    entries := scanDirectory ig options.depth options.focus fuel tree dir "" 0
    projectInfo := parseProject fs dir (detectProjectType fs dir)
    monorepo := detectMonorepo fs dir }

/- ## Structured-record formatter (`src/formatters/json.ts`) -/

/-- Join strings with a separator. -/
def joinSep (sep : String) : List String → String
  | [] => ""
  | x :: rest => rest.foldl (fun acc y => acc ++ sep ++ y) x

/-- `2 * k` spaces: the indentation prefix of nesting level `k` under
`JSON.stringify(value, null, 2)`. -/
def ind (k : Nat) : String :=
  ⟨List.replicate (2 * k) ' '⟩

/-- Lowercase hexadecimal digit. -/
def hexDigit (n : Nat) : Char :=
  if n < 10 then Char.ofNat ('0'.toNat + n) else Char.ofNat ('a'.toNat + (n - 10))

/-- The escape `JSON.stringify` applies to one character. -/
def jsonEscapeChar (c : Char) : List Char :=
  if c = '"' then ['\\', '"']
  else if c = '\\' then ['\\', '\\']
  else if c = '\x08' then ['\\', 'b']
  else if c = '\x0c' then ['\\', 'f']
  else if c = '\n' then ['\\', 'n']
  else if c = '\r' then ['\\', 'r']
  else if c = '\t' then ['\\', 't']
  else if c.val < 32 then
    ['\\', 'u', '0', '0', hexDigit (c.toNat / 16), hexDigit (c.toNat % 16)]
  else [c]

/-- A JSON string literal. -/
def jsonStr (s : String) : String :=
  ⟨'"' :: s.data.flatMap jsonEscapeChar ++ ['"']⟩

/-- A pretty-printed JSON object whose closing brace sits at nesting
level `k` (fields are rendered values paired with their keys). -/
def renderObj (k : Nat) (fields : List (String × String)) : String :=
  if fields.isEmpty then "\x7b\x7d"
  else
    "\x7b\n" ++
      joinSep ",\n" (fields.map (fun f => ind (k + 1) ++ jsonStr f.1 ++ ": " ++ f.2)) ++
      "\n" ++ ind k ++ "\x7d"

/-- A pretty-printed JSON array whose closing bracket sits at nesting
level `k`. -/
def renderArr (k : Nat) (items : List String) : String :=
  if items.isEmpty then "[]"
  else
    "[\n" ++ joinSep ",\n" (items.map (fun s => ind (k + 1) ++ s)) ++
      "\n" ++ ind k ++ "]"

structure JsonMetaV where
  bytes : Nat
  tokens : Nat
  deriving DecidableEq, Repr

/-- The `JsonOutput` record built by `formatJson` (JavaScript property
insertion order: the four literal keys, then `config` appended last when
set; `monorepo` is nested under `project`). -/
structure JsonOutputV where
  projectType : String
  monorepo : Option (String × List (String × String))
  structureEntries : List (String × String × Nat × Option Nat)
  dependencies : List (String × String × Bool × Bool)
  config : Option TSConfig
  meta : JsonMetaV
  deriving DecidableEq, Repr

/-- Build the `JsonOutput` record from a scan result and a `meta` value. -/
def jsonOutputOf (result : ScanResult) (meta : JsonMetaV) : JsonOutputV :=
  { projectType := result.projectInfo.type.toStr
    monorepo := result.monorepo.map
      (fun m => (m.type.toStr, m.packages.map (fun p => (p.name, p.path))))
    structureEntries := result.entries.map
      (fun e => (e.relativePath, if e.isDirectory then "directory" else "file",
                 e.depth, e.size))
    dependencies := result.projectInfo.dependencies.map
      (fun d => (d.name, d.version, d.isDev, d.isIndirect))
    config := result.projectInfo.node.bind (·.tsconfig)
    meta := meta }

/-- Render a `tsconfig` record: only present fields appear, in the
assignment order of `parseTSConfig`. -/
def renderTsconfig (k : Nat) (t : TSConfig) : String :=
  renderObj k
    ((match t.paths with
      | some ps =>
        [("paths", renderObj (k + 1)
          (ps.map (fun kv => (kv.1, renderArr (k + 2) (kv.2.map jsonStr)))))]
      | none => []) ++
     (match t.baseUrl with
      | some s => [("baseUrl", jsonStr s)]
      | none => []) ++
     (match t.target with
      | some s => [("target", jsonStr s)]
      | none => []) ++
     (match t.module with
      | some s => [("module", jsonStr s)]
      | none => []) ++
     (match t.strict with
      | some b => [("strict", if b then "true" else "false")]
      | none => []) ++
     (match t.jsx with
      | some s => [("jsx", jsonStr s)]
      | none => []) ++
     (match t.references with
      | some refs =>
        [("references", renderArr (k + 1)
          (refs.map (fun p => renderObj (k + 2) [("path", jsonStr p)])))]
      | none => []))

/-- `JSON.stringify(output, null, 2)` specialised to the fixed shape of
`JsonOutput` (an `undefined` `size` is dropped from a structure entry,
exactly as `JSON.stringify` drops `undefined`-valued keys). -/
def stringifyJsonOutput (o : JsonOutputV) : String :=
  renderObj 0
    ([("project", renderObj 1
        ([("type", jsonStr o.projectType)] ++
         (match o.monorepo with
          | some m =>
            [("monorepo", renderObj 2
              [("type", jsonStr m.1),
               ("packages", renderArr 3
                 (m.2.map (fun p =>
                   renderObj 4 [("name", jsonStr p.1), ("path", jsonStr p.2)])))])]
          | none => []))),
      ("structure", renderArr 1
        (o.structureEntries.map (fun e =>
          renderObj 2
            ([("path", jsonStr e.1), ("type", jsonStr e.2.1),
              ("depth", Nat.repr e.2.2.1)] ++
             (match e.2.2.2 with
              | some n => [("size", Nat.repr n)]
              | none => []))))),
      ("dependencies", renderArr 1
        (o.dependencies.map (fun d =>
          renderObj 2
            [("name", jsonStr d.1), ("version", jsonStr d.2.1),
             ("dev", if d.2.2.1 then "true" else "false"),
             ("indirect", if d.2.2.2 then "true" else "false")]))),
      ("meta", renderObj 1
        [("bytes", Nat.repr o.meta.bytes), ("tokens", Nat.repr o.meta.tokens)])] ++
     (match o.config with
      | some t => [("config", renderObj 1 [("tsconfig", renderTsconfig 2 t)])]
      | none => []))

/-- The first serialization pass of `formatJson` (meta still zeroed). -/
def formatJsonFirstPass (result : ScanResult) : String :=
  stringifyJsonOutput (jsonOutputOf result ⟨0, 0⟩)

/-- The `output` record of `formatJson` after its `meta` fields were
overwritten with the measurements of the first pass. -/
def formatJsonOutput (result : ScanResult) : JsonOutputV :=
  jsonOutputOf result
    ⟨utf8Len (formatJsonFirstPass result), estimateTokens (formatJsonFirstPass result)⟩

/-- `formatJson`: serialize once with zeroed meta, measure, patch the
meta, serialize again, and measure the final text for the returned
record. -/
def formatJson (result : ScanResult) : ContextResult :=
  let text := formatJsonFirstPass result
  let bytes := utf8Len text
  let tokens := estimateTokens text
  let finalText := stringifyJsonOutput (jsonOutputOf result ⟨bytes, tokens⟩)
  { text := finalText, bytes := utf8Len finalText, tokens := estimateTokens finalText }

/- ## Shared concrete instances used by witnesses and counterexamples -/

/-- A file system on which every probe fails: no files exist, nothing is
readable. -/
def fsEmpty : FS :=
  { access := fun _ => false, readFile := fun _ => none,
    jsonParse := fun _ => none, readdir := fun _ => none }

/-- A scan result with no entries, no dependencies and no monorepo. -/
def cMinScanResult : ScanResult :=
  { root := ".", entries := [],
    projectInfo := ⟨.unknown, [], none, none, none, none⟩,
    monorepo := none }

/- ## Claim C8 -/

/-- Claim C8: `estimateTokens` is the character count divided by four and
rounded up (the two bound conjuncts pin `(length + 3) / 4` as the exact
ceiling), it is deterministic, and it is monotone in text length. -/
theorem estimateTokens_props (s t : String) (h : s.length ≤ t.length) :
    estimateTokens s = (s.length + 3) / 4 ∧
    s.length ≤ 4 * estimateTokens s ∧
    4 * estimateTokens s < s.length + 4 ∧
    (∀ u v : String, u = v → estimateTokens u = estimateTokens v) ∧
    estimateTokens s ≤ estimateTokens t := by
  refine ⟨rfl, ?_, ?_, fun u v huv => by rw [huv], ?_⟩
  · show s.length ≤ 4 * ((s.length + 3) / 4)
    omega
  · show 4 * ((s.length + 3) / 4) < s.length + 4
    omega
  · show (s.length + 3) / 4 ≤ (t.length + 3) / 4
    exact Nat.div_le_div_right (by omega)

/-- Witness for C8 at concrete strings of lengths 2 and 5. -/
theorem estimateTokens_props_witness :
    ("ab" : String).length ≤ ("abcde" : String).length ∧
    (estimateTokens "ab" = (("ab" : String).length + 3) / 4 ∧
     ("ab" : String).length ≤ 4 * estimateTokens "ab" ∧
     4 * estimateTokens "ab" < ("ab" : String).length + 4 ∧
     (∀ u v : String, u = v → estimateTokens u = estimateTokens v) ∧
     estimateTokens "ab" ≤ estimateTokens "abcde") :=
  ⟨by decide, estimateTokens_props "ab" "abcde" (by decide)⟩

/- ## Claim C4 -/

/-- Turn the marker-file search of `detectProjectType` into a right fold. -/
theorem find?_checks_foldr (p : String × ProjectType → Bool) :
    ∀ checks : List (String × ProjectType),
      (match checks.find? p with
       | some check => check.2
       | none => ProjectType.unknown)
        = checks.foldr (fun check acc => if p check then check.2 else acc) .unknown := by
  intro checks
  induction checks with
  | nil => rfl
  | cons c rest ih => by_cases h : p c <;> simp [List.find?, h, ih]

/-- Claim C4: `detectProjectType` checks the marker files in the fixed
order Node manifest, Rust manifest, Go manifest, then the four Python
markers, returns the type of the first marker that exists, and returns
`unknown` when none exists.  The right-hand side is a total chain of
conditionals, so exactly one type is always returned. -/
theorem detectProjectType_cascade (fs : FS) (dir : String) :
    detectProjectType fs dir
      = (if fsExists fs (joinPath dir "package.json") then ProjectType.node
         else if fsExists fs (joinPath dir "Cargo.toml") then .rust
         else if fsExists fs (joinPath dir "go.mod") then .go
         else if fsExists fs (joinPath dir "pyproject.toml") then .python
         else if fsExists fs (joinPath dir "requirements.txt") then .python
         else if fsExists fs (joinPath dir "Pipfile") then .python
         else if fsExists fs (joinPath dir "setup.py") then .python
         else .unknown) := by
  rw [detectProjectType,
    find?_checks_foldr (fun check => fsExists fs (joinPath dir check.1)) projectTypeChecks]
  rfl

/- ## Claim C5 -/

/-- Claim C5: `detectMonorepo` tries the seven strategies in the fixed
order Turborepo, Nx, Lerna, pnpm workspace, npm/yarn workspaces, Go
workspace, Cargo workspace, returning the first success; when every
strategy fails the result is `none` — an absent value, not an error. -/
theorem detectMonorepo_cascade (fs : FS) (dir : String) :
    detectMonorepo fs dir
      = ([detectTurbo fs dir, detectNx fs dir, detectLerna fs dir,
          detectPnpmWorkspace fs dir, detectNpmWorkspaces fs dir,
          detectGoWorkspace fs dir, detectCargoWorkspace fs dir].findSome? id)
    ∧ (detectTurbo fs dir = none → detectNx fs dir = none →
       detectLerna fs dir = none → detectPnpmWorkspace fs dir = none →
       detectNpmWorkspaces fs dir = none → detectGoWorkspace fs dir = none →
       detectCargoWorkspace fs dir = none → detectMonorepo fs dir = none) := by
  constructor
  · cases h1 : detectTurbo fs dir with
    | some v => simp [detectMonorepo, h1, List.findSome?]
    | none =>
      cases h2 : detectNx fs dir with
      | some v => simp [detectMonorepo, h1, h2, List.findSome?]
      | none =>
        cases h3 : detectLerna fs dir with
        | some v => simp [detectMonorepo, h1, h2, h3, List.findSome?]
        | none =>
          cases h4 : detectPnpmWorkspace fs dir with
          | some v => simp [detectMonorepo, h1, h2, h3, h4, List.findSome?]
          | none =>
            cases h5 : detectNpmWorkspaces fs dir with
            | some v => simp [detectMonorepo, h1, h2, h3, h4, h5, List.findSome?]
            | none =>
              cases h6 : detectGoWorkspace fs dir with
              | some v => simp [detectMonorepo, h1, h2, h3, h4, h5, h6, List.findSome?]
              | none =>
                cases h7 : detectCargoWorkspace fs dir with
                | some v =>
                  simp [detectMonorepo, h1, h2, h3, h4, h5, h6, h7, List.findSome?]
                | none =>
                  simp [detectMonorepo, h1, h2, h3, h4, h5, h6, h7, List.findSome?]
  · intro h1 h2 h3 h4 h5 h6 h7
    simp [detectMonorepo, h1, h2, h3, h4, h5, h6, h7]

/-- Witness for C5: on the empty file system every strategy fails and
the cascade returns the absent value. -/
theorem detectMonorepo_cascade_witness : detectMonorepo fsEmpty "" = none :=
  (detectMonorepo_cascade fsEmpty "").2 (by decide) (by decide) (by decide)
    (by decide) (by decide) (by decide) (by decide)

/- ## Claim C1 -/

/-- Claim C1 (amended): when an ecosystem's manifest is missing or
unreadable, every parser returns an empty dependency list; the Go and
Rust parsers additionally leave their ecosystem sub-record absent, but
the Node and Python parsers still populate theirs (with defaulted
fields), contrary to the original claim. -/
theorem parseProject_missing_manifest (fs : FS) (dir : String)
    (hnode : readJson fs (joinPath dir "package.json") = none)
    (hgo : readText fs (joinPath dir "go.mod") = none)
    (hrust : readToml fs (joinPath dir "Cargo.toml") = none)
    (hpy1 : fsExists fs (joinPath dir "pyproject.toml") = false ∨
            readToml fs (joinPath dir "pyproject.toml") = none)
    (hpy2 : fsExists fs (joinPath dir "Pipfile") = false ∨
            readToml fs (joinPath dir "Pipfile") = none)
    (hpy3 : fsExists fs (joinPath dir "requirements.txt") = false ∨
            readText fs (joinPath dir "requirements.txt") = none) :
    ((parseProject fs dir .node).dependencies = [] ∧
     (parseProject fs dir .node).node.isSome = true) ∧
    ((parseProject fs dir .python).dependencies = [] ∧
     (parseProject fs dir .python).python.isSome = true) ∧
    ((parseProject fs dir .go).dependencies = [] ∧
     (parseProject fs dir .go).go = none) ∧
    ((parseProject fs dir .rust).dependencies = [] ∧
     (parseProject fs dir .rust).rust = none) := by
  refine ⟨⟨?_, rfl⟩, ⟨?_, rfl⟩, ⟨?_, ?_⟩, ⟨?_, ?_⟩⟩
  · simp [parseProject, parseNodeProject, hnode]
  · show (parsePythonProject fs dir).dependencies = []
    by_cases e1 : fsExists fs (joinPath dir "pyproject.toml")
    · rcases hpy1 with h | h
      · exact absurd e1 (by simp [h])
      · simp [parsePythonProject, e1, parsePyproject, h]
    · by_cases e2 : fsExists fs (joinPath dir "Pipfile")
      · rcases hpy2 with h | h
        · exact absurd e2 (by simp [h])
        · simp [parsePythonProject, e1, e2, parsePipfile, h]
      · by_cases e3 : fsExists fs (joinPath dir "requirements.txt")
        · rcases hpy3 with h | h
          · exact absurd e3 (by simp [h])
          · simp [parsePythonProject, e1, e2, e3, parseRequirementsTxt,
              FS.readTextTruthy, h]
        · simp [parsePythonProject, e1, e2, e3]
  · simp [parseProject, parseGoProject, FS.readTextTruthy, hgo]
  · simp [parseProject, parseGoProject, FS.readTextTruthy, hgo]
  · simp [parseProject, parseRustProject, hrust]
  · simp [parseProject, parseRustProject, hrust]

/-- Counterexample for C1 as stated: on a file system with no readable
manifests, the Node and Python parsers still return a present ecosystem
sub-record. -/
theorem parseProject_missing_manifest_counterexample :
    (parseProject fsEmpty "." .node).node ≠ none ∧
    (parseProject fsEmpty "." .python).python ≠ none := by decide

/-- Witness for C1 on the empty file system. -/
theorem parseProject_missing_manifest_witness :
    ((parseProject fsEmpty "." .node).dependencies = [] ∧
     (parseProject fsEmpty "." .node).node.isSome = true) ∧
    ((parseProject fsEmpty "." .python).dependencies = [] ∧
     (parseProject fsEmpty "." .python).python.isSome = true) ∧
    ((parseProject fsEmpty "." .go).dependencies = [] ∧
     (parseProject fsEmpty "." .go).go = none) ∧
    ((parseProject fsEmpty "." .rust).dependencies = [] ∧
     (parseProject fsEmpty "." .rust).rust = none) :=
  parseProject_missing_manifest fsEmpty "." rfl rfl rfl
    (Or.inl rfl) (Or.inl rfl) (Or.inl rfl)

/- ## Claim C2 -/

/-- Claim C2 (amended): the meta embedded in the serialized payload
carries the byte length and token estimate of the *first* serialization
pass (taken while the meta fields were still zero), while the byte and
token counts of the returned `ContextResult` are those of the final
re-serialized text. -/
theorem formatJson_meta_firstpass (result : ScanResult) :
    (formatJsonOutput result).meta
      = ⟨utf8Len (formatJsonFirstPass result),
         estimateTokens (formatJsonFirstPass result)⟩
    ∧ (formatJson result).text = stringifyJsonOutput (formatJsonOutput result)
    ∧ (formatJson result).bytes = utf8Len ((formatJson result).text)
    ∧ (formatJson result).tokens = estimateTokens ((formatJson result).text) :=
  ⟨rfl, rfl, rfl, rfl⟩

set_option maxRecDepth 100000 in
/-- Counterexample for C2 as stated: on the minimal scan result the
embedded meta (134 bytes, 34 tokens, measured on the first pass) differs
from the byte length (137) and token estimate (35) of the returned final
text, because patching the meta lengthened the payload. -/
theorem formatJson_meta_stale :
    (formatJsonOutput cMinScanResult).meta.bytes
        ≠ utf8Len ((formatJson cMinScanResult).text) ∧
    (formatJsonOutput cMinScanResult).meta.tokens
        ≠ estimateTokens ((formatJson cMinScanResult).text) := by decide

/- ## Claim C3 -/

/-- A root directory holding one plain file named `src`. -/
def cFocusTreeFile : List FsNode := [.file "src" (some 3)]

/-- A root directory holding one subdirectory named `src`. -/
def cFocusTreeDir : List FsNode := [.dir "src" (some 3) []]

/-- Claim C3 evaluated on the failing input: with focus `src/api`, the
source's directory branch applies the bidirectional ancestor-or-
descendant test (the `src` directory on the ancestor chain is emitted),
but its file branch applies only the descendant test (a `src` file on
the ancestor chain is dropped), while the spec's uniform rule
(`scanDirectoryUniform`) emits it: the one rule is not applied
uniformly. -/
theorem scanDirectory_focus_mixed :
    scanDirectory (fun _ => false) none (some "src/api") 3 cFocusTreeFile "." "" 0 = [] ∧
    scanDirectory (fun _ => false) none (some "src/api") 3 cFocusTreeDir "." "" 0
      = [⟨"src", "./src", "src", true, 0, some 3⟩] ∧
    scanDirectoryUniform (fun _ => false) none (some "src/api") 3 cFocusTreeFile "." "" 0
      = [⟨"src", "./src", "src", false, 0, some 3⟩] := by decide

/- ## Claim C9 -/

/-- A nonempty pattern that is a suffix of a character list is found by
the first-occurrence scan. -/
theorem findSplitFirst_isSome_of_suffix :
    ∀ (cs pat : List Char), pat ≠ [] → pat <:+ cs →
      (findSplitFirst pat cs).isSome = true := by
  intro cs
  induction cs with
  | nil =>
    intro pat hne hsuf
    exact absurd (List.suffix_nil.mp hsuf) hne
  | cons c cs ih =>
    intro pat hne hsuf
    unfold findSplitFirst
    by_cases hp : pat.isPrefixOf (c :: cs) = true
    · simp [hp]
    · rcases List.suffix_cons_iff.mp hsuf with heq | htail
      · rw [heq] at hp
        exact absurd (List.isPrefixOf_iff_prefix.mpr (List.prefix_refl _)) hp
      · have hrec := ih pat hne htail
        simp only [hp, if_false, Bool.false_eq_true]
        cases hfs : findSplitFirst pat cs with
        | some v => simp
        | none => rw [hfs] at hrec; simp at hrec

/-- Claim C9: the `go.mod` line processor.  (1) Scenario B: a require
block around `github.com/x/y v1.2.3 // indirect` yields exactly that one
indirect dependency.  (2) A `module` line sets the module name.  (3) A
`go` line sets the version.  (4) A single-line `require name version`
appends a direct dependency with `isIndirect` false.  (5) A line inside
a `require (` block appends one dependency whose `isIndirect` flag is
the presence of the `// indirect` marker, and (6) a line carrying the
marker in trailing position does carry it in the sense of (5), so the
flag is true exactly on marker-carrying lines.  (7) `parseGoMod` is the
fold of the line processor over the lines of the content. -/
theorem parseGoMod_lines :
    (parseGoMod "require (\n  github.com/x/y v1.2.3 // indirect\n)"
        = ⟨none, none, [⟨"github.com/x/y", "v1.2.3", false, true⟩], false⟩) ∧
    (∀ (st : GoModAcc) (l : String),
      jsStartsWith (jsTrim l) "module " = true →
      parseGoModLine st l
        = { st with moduleName := some (jsTrim (jsSliceFrom (jsTrim l) 7)) }) ∧
    (∀ (st : GoModAcc) (l : String),
      jsStartsWith (jsTrim l) "module " = false →
      jsStartsWith (jsTrim l) "go " = true →
      parseGoModLine st l
        = { st with goVersion := some (jsTrim (jsSliceFrom (jsTrim l) 3)) }) ∧
    (∀ (st : GoModAcc) (l : String) (n v : String) (rest : List String),
      jsStartsWith (jsTrim l) "module " = false →
      jsStartsWith (jsTrim l) "go " = false →
      (jsTrim l == "require (") = false →
      (jsTrim l == ")") = false →
      jsStartsWith (jsTrim l) "require " = true →
      jsIncludes (jsTrim l) "(" = false →
      jsSplitWs (jsTrim (jsSliceFrom (jsTrim l) 8)) = n :: v :: rest →
      parseGoModLine st l
        = { st with dependencies := st.dependencies ++ [⟨n, v, false, false⟩] }) ∧
    (∀ (st : GoModAcc) (l : String) (n v : String) (rest : List String),
      jsStartsWith (jsTrim l) "module " = false →
      jsStartsWith (jsTrim l) "go " = false →
      (jsTrim l == "require (") = false →
      (jsTrim l == ")") = false →
      jsStartsWith (jsTrim l) "require " = false →
      st.inRequireBlock = true →
      (jsTrim l == "") = false →
      jsStartsWith (jsTrim l) "//" = false →
      jsSplitWs (jsTrim (jsReplaceFirst (jsTrim l) "// indirect" "")) = n :: v :: rest →
      parseGoModLine st l
        = { st with dependencies :=
              st.dependencies ++ [⟨n, v, false, jsIncludes (jsTrim l) "// indirect"⟩] }) ∧
    (∀ s : String, jsEndsWith s "// indirect" = true →
      jsIncludes s "// indirect" = true) ∧
    (∀ content : String,
      parseGoMod content
        = (jsSplitChar content '\n').foldl parseGoModLine ⟨none, none, [], false⟩) := by
  refine ⟨by decide, ?_, ?_, ?_, ?_, ?_, fun _ => rfl⟩
  · intro st l h
    simp [parseGoModLine, h]
  · intro st l h1 h2
    simp [parseGoModLine, h1, h2]
  · intro st l n v rest h1 h2 h3 h4 h5 h6 h7
    simp [parseGoModLine, h1, h2, h3, h4, h5, h6, h7]
  · intro st l n v rest h1 h2 h3 h4 h5 hb hne hcm h7
    have hne' : ¬ jsTrim l = "" := by simpa using hne
    simp [parseGoModLine, h1, h2, h3, h4, h5, hb, hne', hcm, h7]
  · intro s h
    have hsuf : ("// indirect".data : List Char) <:+ s.data := of_decide_eq_true h
    exact findSplitFirst_isSome_of_suffix s.data "// indirect".data (by decide) hsuf

/-- Witness for C9: the line-level clauses at concrete inputs. -/
theorem parseGoMod_lines_witness :
    (parseGoModLine ⟨none, none, [], false⟩ "module example.com/x"
        = { (⟨none, none, [], false⟩ : GoModAcc) with
            moduleName := some
              (jsTrim (jsSliceFrom (jsTrim "module example.com/x") 7)) }) ∧
    (parseGoModLine ⟨none, none, [], false⟩ "go 1.21"
        = { (⟨none, none, [], false⟩ : GoModAcc) with
            goVersion := some (jsTrim (jsSliceFrom (jsTrim "go 1.21") 3)) }) ∧
    (parseGoModLine ⟨none, none, [], false⟩ "require golang.org/x/text v0.3.0"
        = { (⟨none, none, [], false⟩ : GoModAcc) with
            dependencies := [] ++ [⟨"golang.org/x/text", "v0.3.0", false, false⟩] }) ∧
    (parseGoModLine ⟨none, none, [], true⟩ "  github.com/x/y v1.2.3 // indirect"
        = { (⟨none, none, [], true⟩ : GoModAcc) with
            dependencies := [] ++ [⟨"github.com/x/y", "v1.2.3", false,
              jsIncludes (jsTrim "  github.com/x/y v1.2.3 // indirect") "// indirect"⟩] }) ∧
    jsIncludes "github.com/x/y v1.2.3 // indirect" "// indirect" = true :=
  ⟨parseGoMod_lines.2.1 ⟨none, none, [], false⟩ "module example.com/x" (by decide),
   parseGoMod_lines.2.2.1 ⟨none, none, [], false⟩ "go 1.21" (by decide) (by decide),
   parseGoMod_lines.2.2.2.1 ⟨none, none, [], false⟩ "require golang.org/x/text v0.3.0"
     "golang.org/x/text" "v0.3.0" [] (by decide) (by decide) (by decide) (by decide)
     (by decide) (by decide) (by decide),
   parseGoMod_lines.2.2.2.2.1 ⟨none, none, [], true⟩ "  github.com/x/y v1.2.3 // indirect"
     "github.com/x/y" "v1.2.3" [] (by decide) (by decide) (by decide) (by decide)
     (by decide) rfl (by decide) (by decide) (by decide),
   parseGoMod_lines.2.2.2.2.2.1 "github.com/x/y v1.2.3 // indirect" (by decide)⟩

/- ## Scanner lemmas -/

/-- A guarded flat map is the flat map over the filtered list. -/
theorem flatMap_if_filter {α β : Type} (l : List α) (p : α → Bool) (f : α → List β) :
    (l.flatMap fun a => if p a then [] else f a)
      = (l.filter fun a => !p a).flatMap f := by
  induction l with
  | nil => rfl
  | cons a rest ih => by_cases h : p a <;> simp [h, ih]

/-- A flat map of singletons is a map. -/
theorem flatMap_singleton_map {α β : Type} (l : List α) (f : α → β) :
    (l.flatMap fun a => [f a]) = l.map f := by
  induction l with
  | nil => rfl
  | cons a rest ih => simp [ih]

/-- Every entry produced by `scanDirectory` lies at or below the depth
at which the walk was entered. -/
theorem scanDirectory_depth_le (ig : String → Bool) (m : Option Nat)
    (focus : Option String) :
    ∀ (fuel : Nat) (items : List FsNode) (dirPath rel : String) (depth : Nat)
      (e : FileEntry), e ∈ scanDirectory ig m focus fuel items dirPath rel depth →
      depth ≤ e.depth := by
  intro fuel
  induction fuel with
  | zero =>
    intro items dirPath rel depth e he
    simp [scanDirectory] at he
  | succ n ih =>
    intro items dirPath rel depth e he
    rw [scanDirectory] at he
    by_cases hstop : stopAtDepth m depth
    · simp [hstop] at he
    · simp only [hstop, if_false, Bool.false_eq_true] at he
      rcases List.mem_append.mp he with hd | hf
      · rcases List.mem_flatMap.mp hd with ⟨c, hc, hin⟩
        by_cases hfoc : focusSkipDir focus (joinPath rel c.name)
        · simp [hfoc] at hin
        · simp only [hfoc, if_false, Bool.false_eq_true] at hin
          rcases List.mem_cons.mp hin with heq | hrec
          · subst heq; exact le_refl _
          · exact Nat.le_of_succ_le (ih _ _ _ _ _ hrec)
      · rcases List.mem_flatMap.mp hf with ⟨c, hc, hin⟩
        by_cases hfoc : focusSkipFile focus (joinPath rel c.name)
        · simp [hfoc] at hin
        · simp only [hfoc, if_false, Bool.false_eq_true, List.mem_singleton] at hin
          subst hin; exact le_refl _

/-- The walk never emits an entry whose root-relative path the ignore
rule set matches. -/
theorem scanDirectory_not_ignored (ig : String → Bool) (m : Option Nat)
    (focus : Option String) :
    ∀ (fuel : Nat) (items : List FsNode) (dirPath rel : String) (depth : Nat)
      (e : FileEntry), e ∈ scanDirectory ig m focus fuel items dirPath rel depth →
      ig e.relativePath = false := by
  intro fuel
  induction fuel with
  | zero =>
    intro items dirPath rel depth e he
    simp [scanDirectory] at he
  | succ n ih =>
    intro items dirPath rel depth e he
    rw [scanDirectory] at he
    by_cases hstop : stopAtDepth m depth
    · simp [hstop] at he
    · simp only [hstop, if_false, Bool.false_eq_true] at he
      rcases List.mem_append.mp he with hd | hf
      · rcases List.mem_flatMap.mp hd with ⟨c, hc, hin⟩
        have hkept : c ∈ scanKept ig items rel :=
          List.mem_of_mem_filter ((List.mem_insertionSort _).mp hc)
        have hig : ig (joinPath rel c.name) = false := by
          have := (List.mem_filter.mp hkept).2
          simpa using this
        by_cases hfoc : focusSkipDir focus (joinPath rel c.name)
        · simp [hfoc] at hin
        · simp only [hfoc, if_false, Bool.false_eq_true] at hin
          rcases List.mem_cons.mp hin with heq | hrec
          · subst heq; exact hig
          · exact ih _ _ _ _ _ hrec
      · rcases List.mem_flatMap.mp hf with ⟨c, hc, hin⟩
        have hkept : c ∈ scanKept ig items rel :=
          List.mem_of_mem_filter ((List.mem_insertionSort _).mp hc)
        have hig : ig (joinPath rel c.name) = false := by
          have := (List.mem_filter.mp hkept).2
          simpa using this
        by_cases hfoc : focusSkipFile focus (joinPath rel c.name)
        · simp [hfoc] at hin
        · simp only [hfoc, if_false, Bool.false_eq_true, List.mem_singleton] at hin
          subst hin; exact hig

/- ## Claim C7 -/

/-- Claim C7: a depth-limited walk equals the unlimited walk with every
entry deeper than the limit filtered out — so entries at the boundary
depth are still emitted, in order, while everything below them is not. -/
theorem scanDirectory_depth_bound (ig : String → Bool) (focus : Option String) (m : Nat) :
    ∀ (fuel : Nat) (items : List FsNode) (dirPath rel : String) (depth : Nat),
      scanDirectory ig (some m) focus fuel items dirPath rel depth
        = (scanDirectory ig none focus fuel items dirPath rel depth).filter
            (fun e => decide (e.depth ≤ m)) := by
  intro fuel
  induction fuel with
  | zero => intro items dirPath rel depth; rfl
  | succ n ih =>
    intro items dirPath rel depth
    by_cases hd : m < depth
    · have h1 : stopAtDepth (some m) depth = true := by simp [stopAtDepth, hd]
      rw [scanDirectory, if_pos (by simp [h1])]
      symm
      rw [List.filter_eq_nil_iff]
      intro e he
      have := scanDirectory_depth_le ig none focus _ _ _ _ _ e he
      simp only [decide_eq_true_eq]
      omega
    · have h1 : stopAtDepth (some m) depth = false := by simp [stopAtDepth, hd]
      have h2 : stopAtDepth none depth = false := rfl
      rw [scanDirectory, scanDirectory, if_neg (by simp [h1]), if_neg (by simp [h2]),
        List.filter_append, List.filter_flatMap, List.filter_flatMap]
      congr 1
      · apply List.flatMap_congr
        intro c hc
        by_cases hfoc : focusSkipDir focus (joinPath rel c.name)
        · simp [hfoc]
        · simp only [hfoc, if_false, Bool.false_eq_true, List.filter_cons]
          have hmk : (decide ((mkDirEntry dirPath rel depth c).depth ≤ m)) = true := by
            simp [mkDirEntry]; omega
          simp only [hmk, if_true]
          rw [ih]
      · apply List.flatMap_congr
        intro c hc
        by_cases hfoc : focusSkipFile focus (joinPath rel c.name)
        · simp [hfoc]
        · simp only [hfoc, if_false, Bool.false_eq_true, List.filter_cons]
          have hmk : (decide ((mkFileEntry dirPath rel depth c).depth ≤ m)) = true := by
            simp [mkFileEntry]; omega
          simp [hmk]

/- ## Claim C6 -/

/-- The subdirectory entries actually emitted at one level: the sorted
kept directory group, minus the focus-skipped ones. -/
def emittedDirs (ig : String → Bool) (focus : Option String) (items : List FsNode)
    (rel : String) : List FsNode :=
  (scanDirs ig items rel).filter (fun c => !focusSkipDir focus (joinPath rel c.name))

/-- The file entries actually emitted at one level. -/
def emittedFiles (ig : String → Bool) (focus : Option String) (items : List FsNode)
    (rel : String) : List FsNode :=
  (scanFiles ig items rel).filter (fun c => !focusSkipFile focus (joinPath rel c.name))

/-- Filtering a block list (head entry followed by a strictly deeper
subtree, per element) down to the block depth keeps exactly the heads. -/
theorem flatMap_block_filter_depth (d : Nat) (l : List FsNode) (mk : FsNode → FileEntry)
    (sub : FsNode → List FileEntry) (hmk : ∀ c, (mk c).depth = d)
    (hsub : ∀ c e, e ∈ sub c → d < e.depth) :
    ((l.flatMap fun c => mk c :: sub c).filter (fun e => decide (e.depth = d)))
      = l.map mk := by
  induction l with
  | nil => rfl
  | cons c rest ih =>
    have hhead : (decide ((mk c).depth = d)) = true := by simp [hmk c]
    have hrest : (sub c).filter (fun e => decide (e.depth = d)) = [] := by
      rw [List.filter_eq_nil_iff]
      intro e he
      have := hsub c e he
      simp only [decide_eq_true_eq]
      omega
    calc ((c :: rest).flatMap fun c => mk c :: sub c).filter (fun e => decide (e.depth = d))
        = (mk c :: sub c).filter (fun e => decide (e.depth = d)) ++
            (rest.flatMap fun c => mk c :: sub c).filter (fun e => decide (e.depth = d)) := by
          rw [List.flatMap_cons, List.filter_append]
      _ = mk c :: ((sub c).filter (fun e => decide (e.depth = d))) ++
            (rest.flatMap fun c => mk c :: sub c).filter (fun e => decide (e.depth = d)) := by
          simp [List.filter_cons, hhead]
      _ = (c :: rest).map mk := by rw [hrest, ih]; simp

/-- Claim C6: at every level of the walk (the statement is quantified
over all subtrees, paths and depths, so it applies at every recursion
level), (i) the walk output is the emitted subdirectory group, each
entry immediately followed by its entire recursively-scanned subtree,
followed by the emitted file group — depth-first contiguity with
subdirectories before files; (ii) restricted to the entries of the
current depth, the output is exactly the directory names followed by
the file names; (iii)/(iv) each group is sorted by name. -/
theorem scanDirectory_ordering (ig : String → Bool) (m : Option Nat)
    (focus : Option String) (fuel : Nat) (items : List FsNode) (dirPath rel : String)
    (depth : Nat) (hstop : stopAtDepth m depth = false) :
    scanDirectory ig m focus (fuel + 1) items dirPath rel depth
      = (emittedDirs ig focus items rel).flatMap
          (fun c => mkDirEntry dirPath rel depth c ::
            scanDirectory ig m focus fuel c.children (joinPath dirPath c.name)
              (joinPath rel c.name) (depth + 1)) ++
        (emittedFiles ig focus items rel).map (mkFileEntry dirPath rel depth)
    ∧ ((scanDirectory ig m focus (fuel + 1) items dirPath rel depth).filter
          (fun e => decide (e.depth = depth))).map (fun e => (e.isDirectory, e.name))
        = (emittedDirs ig focus items rel).map (fun c => (true, c.name)) ++
          (emittedFiles ig focus items rel).map (fun c => (false, c.name))
    ∧ List.Sorted strLe ((emittedDirs ig focus items rel).map FsNode.name)
    ∧ List.Sorted strLe ((emittedFiles ig focus items rel).map FsNode.name) := by
  have hcontig :
      scanDirectory ig m focus (fuel + 1) items dirPath rel depth
        = (emittedDirs ig focus items rel).flatMap
            (fun c => mkDirEntry dirPath rel depth c ::
              scanDirectory ig m focus fuel c.children (joinPath dirPath c.name)
                (joinPath rel c.name) (depth + 1)) ++
          (emittedFiles ig focus items rel).map (mkFileEntry dirPath rel depth) := by
    rw [scanDirectory, if_neg (by simp [hstop])]
    congr 1
    · exact flatMap_if_filter (scanDirs ig items rel)
        (fun c => focusSkipDir focus (joinPath rel c.name)) _
    · rw [← flatMap_singleton_map]
      exact flatMap_if_filter (scanFiles ig items rel)
        (fun c => focusSkipFile focus (joinPath rel c.name)) _
  refine ⟨hcontig, ?_, ?_, ?_⟩
  · rw [hcontig, List.filter_append,
      flatMap_block_filter_depth depth _ _ _ (fun c => rfl)
        (fun c e he => Nat.lt_of_succ_le
          (scanDirectory_depth_le ig m focus fuel c.children _ _ _ e he)),
      List.filter_eq_self.mpr (by
        intro e he
        rcases List.mem_map.mp he with ⟨c, hc, heq⟩
        subst heq
        simp [mkFileEntry]),
      List.map_append, List.map_map, List.map_map]
    rfl
  · have h1 : List.Sorted nodeNameLe (scanDirs ig items rel) :=
      List.sorted_insertionSort nodeNameLe _
    exact List.Pairwise.map _ (fun a b hab => hab) (List.Pairwise.filter _ h1)
  · have h1 : List.Sorted nodeNameLe (scanFiles ig items rel) :=
      List.sorted_insertionSort nodeNameLe _
    exact List.Pairwise.map _ (fun a b hab => hab) (List.Pairwise.filter _ h1)

/-- A small unsorted tree used by the C6 witness. -/
def cWitnessTree : List FsNode :=
  [.file "zz.txt" (some 1),
   .dir "b" none [.file "x.txt" (some 2)],
   .dir "a" (some 4) []]

/-- Witness for C6 on a concrete unsorted tree. -/
theorem scanDirectory_ordering_witness :
    stopAtDepth none 0 = false ∧
    (scanDirectory (fun _ => false) none none (1 + 1) cWitnessTree "." "" 0
      = (emittedDirs (fun _ => false) none cWitnessTree "").flatMap
          (fun c => mkDirEntry "." "" 0 c ::
            scanDirectory (fun _ => false) none none 1 c.children (joinPath "." c.name)
              (joinPath "" c.name) (0 + 1)) ++
        (emittedFiles (fun _ => false) none cWitnessTree "").map (mkFileEntry "." "" 0)
    ∧ ((scanDirectory (fun _ => false) none none (1 + 1) cWitnessTree "." "" 0).filter
          (fun e => decide (e.depth = 0))).map (fun e => (e.isDirectory, e.name))
        = (emittedDirs (fun _ => false) none cWitnessTree "").map (fun c => (true, c.name)) ++
          (emittedFiles (fun _ => false) none cWitnessTree "").map (fun c => (false, c.name))
    ∧ List.Sorted strLe ((emittedDirs (fun _ => false) none cWitnessTree "").map FsNode.name)
    ∧ List.Sorted strLe ((emittedFiles (fun _ => false) none cWitnessTree "").map FsNode.name)) :=
  ⟨rfl, scanDirectory_ordering (fun _ => false) none none 1 cWitnessTree "." "" 0 rfl⟩

/- ## Claim C10 -/

/-- Claim C10: with `includeAll` set, the assembled ignore rule set
consists of exactly the caller-supplied patterns followed by the
gitignore-derived patterns (the fixed default-exclude list is the only
part disabled), and gitignore patterns still exclude: no emitted entry's
relative path is matched by any gitignore-derived pattern. -/
theorem scan_includeAll_gitignore (matchPattern : String → String → Bool) (fs : FS)
    (tree : List FsNode) (fuel : Nat) (options : ScanOptions)
    (h : options.includeAll = true) :
    scanPatterns fs options
      = (match options.ignore with
         | some patterns => patterns
         | none => []) ++
        loadGitignore fs (jsOrElse (some options.dir) ".")
    ∧ ∀ e ∈ (scan matchPattern fs tree fuel options).entries,
        ∀ p ∈ loadGitignore fs (jsOrElse (some options.dir) "."),
          matchPattern p e.relativePath = false := by
  constructor
  · simp [scanPatterns, h]
  · intro e he p hp
    have hig : ignoresSem matchPattern (scanPatterns fs options) e.relativePath = false :=
      scanDirectory_not_ignored _ _ _ fuel tree _ _ _ e he
    rw [ignoresSem, List.any_eq_false] at hig
    have hmem : p ∈ scanPatterns fs options := by
      rw [scanPatterns]
      exact List.mem_append_right _ hp
    have := hig p hmem
    simpa using this

/-- A file system whose root `.gitignore` lists the pattern `secret`. -/
def fsGitignore : FS :=
  { access := fun _ => false
    readFile := fun p => if p == "./.gitignore" then some "secret\n" else none
    jsonParse := fun _ => none, readdir := fun _ => none }

/-- Scan options with `includeAll` set. -/
def cScanOptions : ScanOptions := ⟨".", none, true, none, none⟩

/-- A root directory with one ignored file and one kept file. -/
def cGitTree : List FsNode := [.file "keep.txt" (some 1), .file "secret" (some 2)]

/-- Witness for C10: an include-all scan over a tree with a
gitignore-matched file. -/
theorem scan_includeAll_gitignore_witness :
    scanPatterns fsGitignore cScanOptions
      = (match cScanOptions.ignore with
         | some patterns => patterns
         | none => []) ++
        loadGitignore fsGitignore (jsOrElse (some cScanOptions.dir) ".")
    ∧ ∀ e ∈ (scan (fun p s => p == s) fsGitignore cGitTree 3 cScanOptions).entries,
        ∀ p ∈ loadGitignore fsGitignore (jsOrElse (some cScanOptions.dir) "."),
          (p == e.relativePath) = false :=
  scan_includeAll_gitignore (fun p s => p == s) fsGitignore cGitTree 3 cScanOptions rfl
